import Mathlib

/-!
Verification of the inquiry-submission endpoint of the
motor-capacitor-landing repository.

The authoritative handler lives in src/api/submit-inquiry.js; the legacy
variant lives in src/submit-inquiry.js.  JavaScript strings are modelled as
lists of characters, JavaScript runtime values as the inductive `JsValue`,
and the HTTP handler as a pure function from a configuration, a request and
the mail collaborator's outcome to a response record.  The HTML e-mail body
is modelled by the ordered list of values interpolated into the template
(the fixed markup around them carries no information); the server-generated
timestamp and the diagnostic logging are not modelled.
-/

/-- Character constant for the ampersand. -/
def ampC : Char := '&'

/-- Character constant for the less-than sign. -/
def ltC : Char := '<'

/-- Character constant for the greater-than sign. -/
def gtC : Char := '>'

/-- Character constant for the double quote. -/
def quotC : Char := '"'

/-- Character constant for the single quote (code point 39). -/
def aposC : Char := Char.ofNat 39

/-- Character constant for the forward slash. -/
def slashC : Char := '/'

/-- Character constant for the at sign. -/
def atC : Char := '@'

/-- Character constant for the dot. -/
def dotC : Char := '.'

/-- Character constant for the newline (code point 10). -/
def nlC : Char := Char.ofNat 10

/-- Replacement entity for the ampersand. -/
def ampEnt : List Char := ['&', 'a', 'm', 'p', ';']

/-- Replacement entity for the less-than sign. -/
def ltEnt : List Char := ['&', 'l', 't', ';']

/-- Replacement entity for the greater-than sign. -/
def gtEnt : List Char := ['&', 'g', 't', ';']

/-- Replacement entity for the double quote. -/
def quotEnt : List Char := ['&', 'q', 'u', 'o', 't', ';']

/-- Replacement entity for the single quote. -/
def aposEnt : List Char := ['&', '#', 'x', '2', '7', ';']

/-- Replacement entity for the forward slash. -/
def slashEnt : List Char := ['&', '#', 'x', '2', 'F', ';']

/-- Test for the JavaScript whitespace class: the characters matched by the
regular-expression class backslash-s and removed by String.prototype.trim
(ASCII whitespace, NBSP, the Unicode space separators, the line separators
and the BOM). -/
def jsWs (c : Char) : Bool :=
  [9, 10, 11, 12, 13, 32, 160, 0x1680, 0x2028, 0x2029, 0x202F, 0x205F,
    0x3000, 0xFEFF].contains c.toNat
  || (decide (0x2000 ≤ c.toNat) && decide (c.toNat ≤ 0x200A))

/-- Model of String.prototype.trim: drop leading and trailing JavaScript
whitespace. -/
def trim (s : List Char) : List Char :=
  ((s.dropWhile jsWs).reverse.dropWhile jsWs).reverse

/-- Model of String.prototype.replace with a global single-character pattern:
each occurrence of `t` is replaced by the list `r`. -/
def replaceChar (t : Char) (r : List Char) : List Char → List Char
  | [] => []
  | c :: rest => (if c = t then r else [c]) ++ replaceChar t r rest

/-- Model of Validator.sanitizeHtml on a string already known to be a string:
the six sequential global replacements of src/api/submit-inquiry.js, applied
in source order (ampersand first, slash last). -/
def sanitizeHtml (s : List Char) : List Char :=
  replaceChar slashC slashEnt
    (replaceChar aposC aposEnt
      (replaceChar quotC quotEnt
        (replaceChar gtC gtEnt
          (replaceChar ltC ltEnt
            (replaceChar ampC ampEnt s)))))

/-- Model of a JavaScript runtime value as far as the handler inspects one:
strings, numbers (modelled as integers), booleans, null, undefined and
arrays. -/
inductive JsValue where
  | str (s : List Char)
  | num (n : Int)
  | bool (b : Bool)
  | null
  | undefined
  | arr (xs : List JsValue)

/-- Underlying character list of a value already known to be a string
(the validators call String methods only after isValidLength has
established that the value is a string). -/
def jsStr : JsValue → List Char
  | .str s => s
  | _ => []

/-- Model of Validator.sanitizeHtml on an arbitrary value: the source
returns the empty string for a non-string argument. -/
def sanitizeHtmlJs : JsValue → List Char
  | .str s => sanitizeHtml s
  | _ => []

/-- Model of Validator.isValidLength: false for a non-string, otherwise an
inclusive bounds check on the raw (untrimmed) length. -/
def isValidLength (v : JsValue) (mn mx : Nat) : Bool :=
  match v with
  | .str s => decide (mn ≤ s.length) && decide (s.length ≤ mx)
  | _ => false

/-- Local part of a candidate e-mail address: the characters before the
first at sign. -/
def emailLocal (s : List Char) : List Char :=
  s.takeWhile (fun c => c != atC)

/-- Domain part of a candidate e-mail address: the characters after the
first at sign. -/
def emailDomain (s : List Char) : List Char :=
  (s.dropWhile (fun c => c != atC)).drop 1

/-- Interior of the domain part: the domain with its first and last
characters removed.  The source regex requires a dot in this region. -/
def emailMid (s : List Char) : List Char :=
  ((emailDomain s).drop 1).dropLast

/-- Character class of the source regex bracket expression: neither
whitespace nor an at sign. -/
def nonWsAt (c : Char) : Bool := !jsWs c && c != atC

/-- Model of Validator.isValidEmail: an executable decision procedure for
the source regex (anchored: nonempty run of non-whitespace non-at
characters, an at sign, a second such run, a dot, a third such run).  The
theorem isValidEmail_iff_lang below proves this decision procedure
equivalent to the declarative language of that regex. -/
def isValidEmail (s : List Char) : Bool :=
  decide (s.countP (fun c => c == atC) = 1)
  && s.all (fun c => !jsWs c)
  && decide (emailLocal s ≠ [])
  && (emailMid s).any (fun c => c == dotC)

/-- Declarative language of the source regex
`[^\s@]+ @ [^\s@]+ . [^\s@]+` (anchored at both ends). -/
def emailRegexLang (s : List Char) : Prop :=
  ∃ a b c : List Char,
    s = a ++ atC :: (b ++ dotC :: c)
    ∧ a ≠ [] ∧ b ≠ [] ∧ c ≠ []
    ∧ (∀ x ∈ a, nonWsAt x = true)
    ∧ (∀ x ∈ b, nonWsAt x = true)
    ∧ (∀ x ∈ c, nonWsAt x = true)

/-- Model of Validator.validateName. -/
def validateName (v : JsValue) : Option (List Char) :=
  if isValidLength v 1 100 then some (sanitizeHtml (trim (jsStr v))) else none

/-- Model of Validator.validateCompany. -/
def validateCompany (v : JsValue) : Option (List Char) :=
  if isValidLength v 1 200 then some (sanitizeHtml (trim (jsStr v))) else none

/-- Model of Validator.validateEmail: raw length 5 to 255, then the regex
test on the trimmed value, then escaping of the trimmed value. -/
def validateEmail (v : JsValue) : Option (List Char) :=
  if isValidLength v 5 255 then
    (if isValidEmail (trim (jsStr v)) then some (sanitizeHtml (trim (jsStr v)))
     else none)
  else none

/-- Model of Validator.validateCountry. -/
def validateCountry (v : JsValue) : Option (List Char) :=
  if isValidLength v 1 100 then some (sanitizeHtml (trim (jsStr v))) else none

/-- Model of Validator.validateMessage. -/
def validateMessage (v : JsValue) : Option (List Char) :=
  if isValidLength v 10 5000 then some (sanitizeHtml (trim (jsStr v))) else none

/-- Membership test against the fixed product whitelist.  The source uses
Array.prototype.includes, whose strict equality accepts only the two exact
strings; every non-string value compares unequal. -/
def inWhitelist : JsValue → Bool
  | .str s => s == "CBB60".data || s == "CBB61".data
  | _ => false

/-- Model of Validator.validateProducts: reject non-arrays and empty
arrays, keep the whitelisted entries, escape them, and reject when nothing
survives. -/
def validateProducts (v : JsValue) : Option (List (List Char)) :=
  match v with
  | .arr ps =>
    if ps.length = 0 then none
    else
      (let sanitized := (ps.filter inWhitelist).map sanitizeHtmlJs
       if 0 < sanitized.length then some sanitized else none)
  | _ => none

/-- Process-wide configuration read from environment variables; a missing
variable is `none`. -/
structure Config where
  resendApiKey : Option (List Char)
  toEmail : Option (List Char)
  fromEmail : Option (List Char)
  allowedOrigins : Option (List Char)

/-- Inbound request as far as the handler inspects it: the method, the
origin header and the six body fields (an absent field is
`JsValue.undefined`).  The request body is assumed to be an object; the
CORS response headers are side effects the claims do not mention and are
not modelled. -/
structure Req where
  method : List Char
  origin : Option (List Char)
  name : JsValue
  company : JsValue
  email : JsValue
  country : JsValue
  products : JsValue
  message : JsValue

/-- Outcome of the outbound call to the mail collaborator: success, a
non-success HTTP response carrying a status and a diagnostic body, or a
thrown network error. -/
inductive MailResult where
  | ok
  | fail (status : Nat) (body : List Char)
  | netThrow
deriving DecidableEq

/-- Shape of the JSON response body. -/
inductive RespBody where
  | empty
  | err (msg : List Char)
  | failure (msg : List Char)
  | okMsg (msg : List Char)
deriving DecidableEq

/-- Observable outcome of one handler invocation: the HTTP status, the
response body, whether the field validators were run, and whether an
outbound send was attempted. -/
structure HOut where
  status : Nat
  body : RespBody
  validated : Bool
  sent : Bool
deriving DecidableEq

/-- JavaScript falsiness of an environment variable: absent or the empty
string. -/
def strFalsy : Option (List Char) → Bool
  | none => true
  | some s => s.isEmpty

/-- JavaScript falsiness of a text-validator result: null or the empty
string. -/
def optFalsy : Option (List Char) → Bool
  | none => true
  | some s => s.isEmpty

/-- Error message of the configuration gate. -/
def configErrMsg : List Char := "Server configuration error".data

/-- Error message of the method gate. -/
def methodErrMsg : List Char := "Method not allowed".data

/-- Error message for a rejected name. -/
def nameErrMsg : List Char :=
  "Invalid name. Please provide a valid name (1-100 characters).".data

/-- Error message for a rejected company. -/
def companyErrMsg : List Char :=
  "Invalid company name. Please provide a valid company name (1-200 characters).".data

/-- Error message for a rejected e-mail address. -/
def emailErrMsg : List Char :=
  "Invalid email address. Please provide a valid email.".data

/-- Error message for a rejected country. -/
def countryErrMsg : List Char :=
  "Invalid country. Please provide a valid country (1-100 characters).".data

/-- Error message for a rejected product selection. -/
def productsErrMsg : List Char :=
  "Please select at least one product (CBB60 or CBB61).".data

/-- Error message for a rejected message body. -/
def messageErrMsg : List Char :=
  "Invalid message. Please provide a message (10-5000 characters).".data

/-- Generic message of the top-level catch clause; the only message ever
returned for an upstream delivery failure. -/
def genericErrMsg : List Char :=
  "An error occurred while processing your request. Please try again later.".data

/-- Success message. -/
def successMsg : List Char := "Inquiry submitted successfully".data

/-- Method string OPTIONS. -/
def optionsMethod : List Char := "OPTIONS".data

/-- Method string POST. -/
def postMethod : List Char := "POST".data

/-- Model of the authoritative handler (module.exports of
src/api/submit-inquiry.js): the configuration gate runs first, then the
OPTIONS short-circuit, then the method gate, then the six validator checks
in source order (each rejecting a falsy result), then the outbound send;
a non-success or thrown send is converted by the catch clause into the
fixed generic 500 response. -/
def handler (cfg : Config) (req : Req) (mail : MailResult) : HOut :=
  if strFalsy cfg.resendApiKey then ⟨500, .failure configErrMsg, false, false⟩
  else if strFalsy cfg.toEmail then ⟨500, .failure configErrMsg, false, false⟩
  else if req.method = optionsMethod then ⟨200, .empty, false, false⟩
  else if req.method ≠ postMethod then ⟨405, .err methodErrMsg, false, false⟩
  else if optFalsy (validateName req.name) then
    ⟨400, .failure nameErrMsg, true, false⟩
  else if optFalsy (validateCompany req.company) then
    ⟨400, .failure companyErrMsg, true, false⟩
  else if optFalsy (validateEmail req.email) then
    ⟨400, .failure emailErrMsg, true, false⟩
  else if optFalsy (validateCountry req.country) then
    ⟨400, .failure countryErrMsg, true, false⟩
  else if (validateProducts req.products).isNone then
    ⟨400, .failure productsErrMsg, true, false⟩
  else if optFalsy (validateMessage req.message) then
    ⟨400, .failure messageErrMsg, true, false⟩
  else
    match mail with
    | .ok => ⟨200, .okMsg successMsg, true, true⟩
    | .fail _ _ => ⟨500, .failure genericErrMsg, true, true⟩
    | .netThrow => ⟨500, .failure genericErrMsg, true, true⟩

/-- Message of the first field, in source order, whose validator result the
handler's falsy check rejects. -/
def firstFailMsg (req : Req) : Option (List Char) :=
  if optFalsy (validateName req.name) then some nameErrMsg
  else if optFalsy (validateCompany req.company) then some companyErrMsg
  else if optFalsy (validateEmail req.email) then some emailErrMsg
  else if optFalsy (validateCountry req.country) then some countryErrMsg
  else if (validateProducts req.products).isNone then some productsErrMsg
  else if optFalsy (validateMessage req.message) then some messageErrMsg
  else none

/-- JavaScript truthiness of a value as used by the legacy handler's
required-field check (empty strings, zero, false, null and undefined are
falsy; every array is truthy). -/
def jsTruthy : JsValue → Bool
  | .str s => !s.isEmpty
  | .num n => decide (n ≠ 0)
  | .bool b => b
  | .null => false
  | .undefined => false
  | .arr _ => true

mutual

/-- Template-literal coercion of a value to a string (an array stringifies
as its elements joined with commas). -/
def jsToString : JsValue → List Char
  | .str s => s
  | .num n => (toString n).data
  | .bool b => if b then "true".data else "false".data
  | .null => "null".data
  | .undefined => "undefined".data
  | .arr xs => jsJoin [','] xs

/-- Model of Array.prototype.join: elements are coerced to strings except
that null and undefined render as the empty string. -/
def jsJoin : List Char → List JsValue → List Char
  | _, [] => []
  | _, [x] =>
    (match x with
     | .null => []
     | .undefined => []
     | v => jsToString v)
  | sep, x :: y :: rest =>
    (match x with
     | .null => []
     | .undefined => []
     | v => jsToString v) ++ sep ++ jsJoin sep (y :: rest)

end

/-- Required-field gate of the legacy handler: every one of the six body
fields must be truthy. -/
def legacyAccepts (r : Req) : Bool :=
  jsTruthy r.name && jsTruthy r.company && jsTruthy r.email
  && jsTruthy r.country && jsTruthy r.products && jsTruthy r.message

/-- Bearer credential hard-coded in the legacy handler. -/
def legacyAuthKey : List Char := "re_Wb6wExws_6bZtSDtaNp85tJTZt7Q8apVm".data

/-- Recipient hard-coded in the legacy handler. -/
def legacyToAddr : List Char := "sales@eperscapacitor.com".data

/-- Product list interpolated by the legacy handler: an array joins with a
comma and a space, any other value coerces via the template literal. -/
def legacyProductsList (r : Req) : List Char :=
  match r.products with
  | .arr xs => jsJoin ", ".data xs
  | v => jsToString v

/-- Email payload constructed by the legacy handler.  The HTML body is
represented by the ordered list of interpolated values (name, company,
email, country, product list, message); reply_to carries the raw request
value. -/
structure LegacyPayload where
  fromAddr : List Char
  toAddrs : List (List Char)
  subject : List Char
  htmlValues : List (List Char)
  replyTo : JsValue

/-- Model of the legacy handler's email construction: raw, unescaped
request values throughout, fixed sender and fixed recipient. -/
def legacyPayload (r : Req) : LegacyPayload :=
  { fromAddr := "Motor Run Capacitor <noreply@eperscapacitor.com>".data
    toAddrs := [legacyToAddr]
    subject := "New Inquiry: ".data ++ jsToString r.name ++ " from ".data
      ++ jsToString r.company
    htmlValues := [jsToString r.name, jsToString r.company,
      jsToString r.email, jsToString r.country, legacyProductsList r,
      jsToString r.message]
    replyTo := r.email }

/-- Substring test, modelling String.prototype.includes. -/
def hasSub (pat : List Char) : List Char → Bool
  | [] => pat.isEmpty
  | c :: rest => pat.isPrefixOf (c :: rest) || hasSub pat rest

/-- Default sender address of the authoritative handler. -/
def defaultFromEmail : List Char := "noreply@eperscapacitor.com".data

/-- FROM_EMAIL resolution of the authoritative handler: the configured
value unless it is falsy, in which case the default. -/
def apiFromEmail (cfg : Config) : List Char :=
  match cfg.fromEmail with
  | some s => if s.isEmpty then defaultFromEmail else s
  | none => defaultFromEmail

/-- Sender header of the authoritative handler: a bare address for
resend.dev domains, a display-name form otherwise. -/
def apiFromHeader (cfg : Config) : List Char :=
  if hasSub "resend.dev".data (apiFromEmail cfg) then apiFromEmail cfg
  else "Motor Run Capacitor <".data ++ apiFromEmail cfg ++ [gtC]

/-- Email payload constructed by the authoritative handler, together with
the bearer credential it sends with. -/
structure ApiPayload where
  authKey : List Char
  fromAddr : List Char
  toAddrs : List (List Char)
  subject : List Char
  htmlValues : List (List Char)
  replyTo : List Char
deriving DecidableEq

/-- Model of the authoritative handler's email construction, defined when
all six validators return a value: sanitized values throughout, the
configured credential and recipient, and the message with newlines turned
into br tags. -/
def apiPayload (cfg : Config) (r : Req) : Option ApiPayload :=
  match validateName r.name, validateCompany r.company, validateEmail r.email,
    validateCountry r.country, validateProducts r.products,
    validateMessage r.message with
  | some n, some c, some e, some co, some ps, some m =>
    some { authKey := cfg.resendApiKey.getD []
           fromAddr := apiFromHeader cfg
           toAddrs := [cfg.toEmail.getD []]
           subject := "New Inquiry: ".data ++ n ++ " from ".data ++ c
           htmlValues := [n, c, e, co, List.intercalate ", ".data ps,
             replaceChar nlC "<br>".data m]
           replyTo := e }
  | _, _, _, _, _, _ => none

/-- Per-character escape map; sanitize_eq_bind below proves that the six
sequential replacements act as this single character map. -/
def escChar (c : Char) : List Char :=
  if c = ampC then ampEnt
  else if c = ltC then ltEnt
  else if c = gtC then gtEnt
  else if c = quotC then quotEnt
  else if c = aposC then aposEnt
  else if c = slashC then slashEnt
  else [c]

/-- Entity tails that may legitimately follow an ampersand in escaped
output. -/
def entTails : List (List Char) :=
  ["amp;".data, "lt;".data, "gt;".data, "quot;".data, "#x27;".data,
    "#x2F;".data]

/-- Escapedness predicate of claim C1: none of the five raw characters
occurs, and every ampersand starts one of the six entities introduced by
escaping. -/
def escapedOk : List Char → Bool
  | [] => true
  | c :: rest =>
    if c = ltC ∨ c = gtC ∨ c = quotC ∨ c = aposC ∨ c = slashC then false
    else if c = ampC then
      entTails.any (fun t => t.isPrefixOf rest) && escapedOk rest
    else escapedOk rest

theorem replaceChar_append (t : Char) (r x y : List Char) :
    replaceChar t r (x ++ y) = replaceChar t r x ++ replaceChar t r y := by
  induction x with
  | nil => rfl
  | cons c cs ih => simp [replaceChar, ih]

theorem sanitize_append (x y : List Char) :
    sanitizeHtml (x ++ y) = sanitizeHtml x ++ sanitizeHtml y := by
  simp [sanitizeHtml, replaceChar_append]

theorem sanitize_single (c : Char) : sanitizeHtml [c] = escChar c := by
  by_cases h1 : c = ampC
  · subst h1; rfl
  · by_cases h2 : c = ltC
    · subst h2; rfl
    · by_cases h3 : c = gtC
      · subst h3; rfl
      · by_cases h4 : c = quotC
        · subst h4; rfl
        · by_cases h5 : c = aposC
          · subst h5; rfl
          · by_cases h6 : c = slashC
            · subst h6; rfl
            · simp [sanitizeHtml, replaceChar, escChar, h1, h2, h3, h4, h5, h6]

theorem sanitize_eq_bind (s : List Char) :
    sanitizeHtml s = s.flatMap escChar := by
  induction s with
  | nil => rfl
  | cons c cs ih =>
    have h : (c :: cs) = [c] ++ cs := rfl
    rw [h, sanitize_append, sanitize_single]
    simp [List.flatMap_cons, ih]

theorem escapedOk_escChar_append (c : Char) (t : List Char) :
    escapedOk (escChar c ++ t) = escapedOk t := by
  by_cases h1 : c = ampC
  · subst h1; simp +decide [escChar, escapedOk, entTails, List.isPrefixOf]
  · by_cases h2 : c = ltC
    · subst h2; simp +decide [escChar, escapedOk, entTails, List.isPrefixOf]
    · by_cases h3 : c = gtC
      · subst h3; simp +decide [escChar, escapedOk, entTails, List.isPrefixOf]
      · by_cases h4 : c = quotC
        · subst h4
          simp +decide [escChar, escapedOk, entTails, List.isPrefixOf]
        · by_cases h5 : c = aposC
          · subst h5
            simp +decide [escChar, escapedOk, entTails, List.isPrefixOf]
          · by_cases h6 : c = slashC
            · subst h6
              simp +decide [escChar, escapedOk, entTails, List.isPrefixOf]
            · simp [escChar, escapedOk, h1, h2, h3, h4, h5, h6]

/-- Every output of sanitizeHtml satisfies the escapedness predicate. -/
theorem escapedOk_sanitize (s : List Char) :
    escapedOk (sanitizeHtml s) = true := by
  rw [sanitize_eq_bind]
  induction s with
  | nil => rfl
  | cons c cs ih => rw [List.flatMap_cons, escapedOk_escChar_append]; exact ih

theorem escapedOk_sanitizeJs (p : JsValue) :
    escapedOk (sanitizeHtmlJs p) = true := by
  cases p <;> first | exact escapedOk_sanitize _ | rfl

/-- C1: every value accepted by any of the six field validators is
HTML-escaped — the returned strings contain none of the raw characters
less-than, greater-than, double quote, single quote or slash, and every
ampersand in them starts one of the six entities introduced by escaping
(the predicate escapedOk); hence a validated submission contains only
escaped text in every text field. -/
theorem validators_escape_accepted_values :
    (∀ v out, validateName v = some out → escapedOk out = true) ∧
    (∀ v out, validateCompany v = some out → escapedOk out = true) ∧
    (∀ v out, validateEmail v = some out → escapedOk out = true) ∧
    (∀ v out, validateCountry v = some out → escapedOk out = true) ∧
    (∀ v out, validateMessage v = some out → escapedOk out = true) ∧
    (∀ v outs, validateProducts v = some outs →
      ∀ o ∈ outs, escapedOk o = true) := by
  refine ⟨?_, ?_, ?_, ?_, ?_, ?_⟩
  · intro v out h
    unfold validateName at h
    split at h
    · cases h; exact escapedOk_sanitize _
    · cases h
  · intro v out h
    unfold validateCompany at h
    split at h
    · cases h; exact escapedOk_sanitize _
    · cases h
  · intro v out h
    unfold validateEmail at h
    split at h
    · split at h
      · cases h; exact escapedOk_sanitize _
      · cases h
    · cases h
  · intro v out h
    unfold validateCountry at h
    split at h
    · cases h; exact escapedOk_sanitize _
    · cases h
  · intro v out h
    unfold validateMessage at h
    split at h
    · cases h; exact escapedOk_sanitize _
    · cases h
  · intro v outs h o ho
    cases v with
    | arr ps =>
      simp only [validateProducts] at h
      by_cases h0 : ps.length = 0
      · rw [if_pos h0] at h; exact Option.noConfusion h
      · rw [if_neg h0] at h
        by_cases h1 : 0 < ((ps.filter inWhitelist).map sanitizeHtmlJs).length
        · rw [if_pos h1] at h
          injection h with h
          subst h
          rcases List.mem_map.mp ho with ⟨p, _, rfl⟩
          exact escapedOk_sanitizeJs p
        · rw [if_neg h1] at h; exact Option.noConfusion h
    | str s => exact Option.noConfusion h
    | num n => exact Option.noConfusion h
    | bool b => exact Option.noConfusion h
    | null => exact Option.noConfusion h
    | undefined => exact Option.noConfusion h

/-- Witness for C1: the six validators applied to concrete accepted inputs
produce escaped output. -/
theorem validators_escape_accepted_values_w :
    escapedOk ("Jane &lt;Doe&gt;".data) = true ∧
    escapedOk ("Acme &amp; Co".data) = true ∧
    escapedOk ("jane@acme.com".data) = true ∧
    escapedOk ("USA".data) = true ∧
    escapedOk ("Quote for 50 units &#x2F; month".data) = true ∧
    escapedOk ("CBB60".data) = true :=
  ⟨validators_escape_accepted_values.1 (.str "Jane <Doe>".data) _ (by decide),
   validators_escape_accepted_values.2.1 (.str "Acme & Co".data) _ (by decide),
   validators_escape_accepted_values.2.2.1 (.str "jane@acme.com".data) _
     (by decide),
   validators_escape_accepted_values.2.2.2.1 (.str "USA".data) _ (by decide),
   validators_escape_accepted_values.2.2.2.2.1
     (.str "Quote for 50 units / month".data) _ (by decide),
   validators_escape_accepted_values.2.2.2.2.2 (.arr [.str "CBB60".data])
     ["CBB60".data] (by decide) ("CBB60".data) (by decide)⟩

theorem mem_replaceChar {x t : Char} {r l : List Char}
    (h : x ∈ replaceChar t r l) : x ∈ l ∨ x ∈ r := by
  induction l with
  | nil => cases h
  | cons c cs ih =>
    rw [replaceChar] at h
    rcases List.mem_append.mp h with h | h
    · by_cases hc : c = t
      · rw [if_pos hc] at h; exact Or.inr h
      · rw [if_neg hc] at h
        rcases List.mem_singleton.mp h with rfl
        exact Or.inl (List.mem_cons_self _ _)
    · rcases ih h with h | h
      · exact Or.inl (List.mem_cons_of_mem _ h)
      · exact Or.inr h

theorem replaceChar_id (t : Char) (r l : List Char)
    (h : ∀ x ∈ l, x ≠ t) : replaceChar t r l = l := by
  induction l with
  | nil => rfl
  | cons c cs ih =>
    rw [replaceChar, if_neg (h c (List.mem_cons_self _ _))]
    simp only [List.singleton_append, List.cons.injEq, true_and]
    exact ih fun x hx => h x (List.mem_cons_of_mem _ hx)

theorem escChar_no_five (c x : Char) (hx : x ∈ escChar c) :
    x ≠ ltC ∧ x ≠ gtC ∧ x ≠ quotC ∧ x ≠ aposC ∧ x ≠ slashC := by
  unfold escChar at hx
  by_cases h1 : c = ampC
  · rw [if_pos h1] at hx
    simp [ampEnt] at hx
    rcases hx with rfl | rfl | rfl | rfl | rfl <;> decide
  · rw [if_neg h1] at hx
    by_cases h2 : c = ltC
    · rw [if_pos h2] at hx
      simp [ltEnt] at hx
      rcases hx with rfl | rfl | rfl | rfl <;> decide
    · rw [if_neg h2] at hx
      by_cases h3 : c = gtC
      · rw [if_pos h3] at hx
        simp [gtEnt] at hx
        rcases hx with rfl | rfl | rfl | rfl <;> decide
      · rw [if_neg h3] at hx
        by_cases h4 : c = quotC
        · rw [if_pos h4] at hx
          simp [quotEnt] at hx
          rcases hx with rfl | rfl | rfl | rfl | rfl | rfl <;> decide
        · rw [if_neg h4] at hx
          by_cases h5 : c = aposC
          · rw [if_pos h5] at hx
            simp [aposEnt] at hx
            rcases hx with rfl | rfl | rfl | rfl | rfl | rfl <;> decide
          · rw [if_neg h5] at hx
            by_cases h6 : c = slashC
            · rw [if_pos h6] at hx
              simp [slashEnt] at hx
              rcases hx with rfl | rfl | rfl | rfl | rfl | rfl <;> decide
            · rw [if_neg h6] at hx
              rcases List.mem_singleton.mp hx with rfl
              exact ⟨h2, h3, h4, h5, h6⟩

/-- Output of sanitizeHtml never contains any of the five replaced
characters other than the ampersand. -/
theorem sanitize_no_five (s : List Char) :
    ∀ x ∈ sanitizeHtml s,
      x ≠ ltC ∧ x ≠ gtC ∧ x ≠ quotC ∧ x ≠ aposC ∧ x ≠ slashC := by
  intro x hx
  rw [sanitize_eq_bind] at hx
  rcases List.mem_flatMap.mp hx with ⟨c, _, hc⟩
  exact escChar_no_five c x hc

/-- Counterexample to C8: sanitizeHtml is not idempotent — a lone
ampersand escapes to the amp entity, which re-escapes to a double-escaped
form. -/
theorem sanitizeHtml_not_idempotent_cex :
    sanitizeHtml [ampC] = "&amp;".data ∧
    sanitizeHtml (sanitizeHtml [ampC]) = "&amp;amp;".data ∧
    sanitizeHtml (sanitizeHtml [ampC]) ≠ sanitizeHtml [ampC] := by decide

/-- C8 amended: a second application of sanitizeHtml performs no
replacement for the five characters less-than, greater-than, double quote,
single quote and slash — it acts on escaped output exactly as the single
ampersand replacement, re-escaping only the ampersands of the entities
(full idempotence fails, as the counterexample shows). -/
theorem sanitizeHtml_double_only_amp (s : List Char) :
    sanitizeHtml (sanitizeHtml s)
      = replaceChar ampC ampEnt (sanitizeHtml s) := by
  have ht := sanitize_no_five s
  have hu : ∀ x ∈ replaceChar ampC ampEnt (sanitizeHtml s),
      x ≠ ltC ∧ x ≠ gtC ∧ x ≠ quotC ∧ x ≠ aposC ∧ x ≠ slashC := by
    intro x hx
    rcases mem_replaceChar hx with h | h
    · exact ht x h
    · simp [ampEnt] at h
      rcases h with rfl | rfl | rfl | rfl | rfl <;> decide
  conv_lhs => rw [sanitizeHtml]
  rw [replaceChar_id ltC ltEnt _ fun x hx => (hu x hx).1,
    replaceChar_id gtC gtEnt _ fun x hx => (hu x hx).2.1,
    replaceChar_id quotC quotEnt _ fun x hx => (hu x hx).2.2.1,
    replaceChar_id aposC aposEnt _ fun x hx => (hu x hx).2.2.2.1,
    replaceChar_id slashC slashEnt _ fun x hx => (hu x hx).2.2.2.2]

theorem isValidLength_str_iff {s : List Char} {mn mx : Nat} :
    isValidLength (.str s) mn mx = true ↔ mn ≤ s.length ∧ s.length ≤ mx := by
  simp [isValidLength]

/-- Counterexample to C2: the length check is applied before trimming, to
the raw value.  A message of raw length 10 whose trimmed length is 9 (one
below the minimum bound) is accepted, though the claim says a value of
trimmed length one below the minimum must fail. -/
theorem length_check_ignores_trim_cex :
    (trim "aaaaaaaaa ".data).length = 9 ∧
    "aaaaaaaaa ".data.length = 10 ∧
    validateMessage (.str "aaaaaaaaa ".data) = some "aaaaaaaaa".data := by
  decide

/-- C2 amended: for every text field the inclusive length check is applied
to the raw, untrimmed value — a raw length equal to either bound passes and
a raw length one outside fails — and trimming happens only afterwards, on
the way into escaping. -/
theorem length_check_on_raw_value (s : List Char) :
    ((validateName (.str s)).isSome = true
      ↔ 1 ≤ s.length ∧ s.length ≤ 100) ∧
    ((validateCompany (.str s)).isSome = true
      ↔ 1 ≤ s.length ∧ s.length ≤ 200) ∧
    ((validateCountry (.str s)).isSome = true
      ↔ 1 ≤ s.length ∧ s.length ≤ 100) ∧
    ((validateMessage (.str s)).isSome = true
      ↔ 10 ≤ s.length ∧ s.length ≤ 5000) ∧
    ((validateEmail (.str s)).isSome = true
      → 5 ≤ s.length ∧ s.length ≤ 255) ∧
    (∀ out, validateMessage (.str s) = some out
      → out = sanitizeHtml (trim s)) := by
  refine ⟨?_, ?_, ?_, ?_, ?_, ?_⟩
  · rw [validateName]
    by_cases h : isValidLength (JsValue.str s) 1 100
    · rw [if_pos h]; simpa using isValidLength_str_iff.mp h
    · rw [if_neg h]
      simp only [Option.isSome_none, Bool.false_eq_true, false_iff]
      exact fun hh => h (isValidLength_str_iff.mpr hh)
  · rw [validateCompany]
    by_cases h : isValidLength (JsValue.str s) 1 200
    · rw [if_pos h]; simpa using isValidLength_str_iff.mp h
    · rw [if_neg h]
      simp only [Option.isSome_none, Bool.false_eq_true, false_iff]
      exact fun hh => h (isValidLength_str_iff.mpr hh)
  · rw [validateCountry]
    by_cases h : isValidLength (JsValue.str s) 1 100
    · rw [if_pos h]; simpa using isValidLength_str_iff.mp h
    · rw [if_neg h]
      simp only [Option.isSome_none, Bool.false_eq_true, false_iff]
      exact fun hh => h (isValidLength_str_iff.mpr hh)
  · rw [validateMessage]
    by_cases h : isValidLength (JsValue.str s) 10 5000
    · rw [if_pos h]; simpa using isValidLength_str_iff.mp h
    · rw [if_neg h]
      simp only [Option.isSome_none, Bool.false_eq_true, false_iff]
      exact fun hh => h (isValidLength_str_iff.mpr hh)
  · intro hsome
    rw [validateEmail] at hsome
    by_cases h : isValidLength (JsValue.str s) 5 255
    · exact isValidLength_str_iff.mp h
    · rw [if_neg h] at hsome; cases hsome
  · intro out h
    rw [validateMessage] at h
    split at h
    · injection h with h; exact h.symm
    · cases h

/-- Witness for the amended C2 at concrete boundary-respecting inputs. -/
theorem length_check_on_raw_value_w :
    (validateMessage (.str "hello world".data)).isSome = true ∧
    (5 ≤ "hello@ex.com".data.length ∧ "hello@ex.com".data.length ≤ 255) ∧
    "hello world".data = sanitizeHtml (trim "hello world".data) :=
  ⟨(length_check_on_raw_value "hello world".data).2.2.2.1.mpr (by decide),
   (length_check_on_raw_value "hello@ex.com".data).2.2.2.2.1 (by decide),
   (length_check_on_raw_value "hello world".data).2.2.2.2.2 _ (by decide)⟩

/-- Concrete configuration with the mail settings present. -/
def cfgPresent : Config :=
  ⟨some "re_key".data, some "sales@example.com".data, none, none⟩

/-- Concrete configuration with every variable absent. -/
def cfgAbsent : Config := ⟨none, none, none, none⟩

/-- Concrete POST request whose six fields all validate. -/
def validReq : Req :=
  ⟨"POST".data, none, .str "Jane Doe".data, .str "Acme Corp".data,
    .str "jane@acme.com".data, .str "USA".data, .arr [.str "CBB60".data],
    .str "Please send a quote for 50 units.".data⟩

/-- Counterexample to C3: with the mail configuration absent, an OPTIONS
request is answered by the configuration gate with a 500, not with the 200
the claim asserts for every configuration. -/
theorem options_missing_config_cex :
    handler cfgAbsent { validReq with method := optionsMethod } .ok
      = ⟨500, .failure configErrMsg, false, false⟩ ∧
    (handler cfgAbsent { validReq with method := optionsMethod } .ok).status
      ≠ 200 := by decide

/-- C3 amended: when the mail configuration is present (credential and
recipient both truthy), every OPTIONS request receives a 200 with an empty
body, and neither field validation nor an outbound send occurs; with
absent or empty mail configuration the configuration gate answers first
with a 500. -/
theorem options_preflight_ok (cfg : Config) (req : Req) (mail : MailResult)
    (h1 : strFalsy cfg.resendApiKey = false)
    (h2 : strFalsy cfg.toEmail = false)
    (h3 : req.method = optionsMethod) :
    handler cfg req mail = ⟨200, .empty, false, false⟩ := by
  simp [handler, h1, h2, h3]

/-- Witness for the amended C3. -/
theorem options_preflight_ok_w :
    handler cfgPresent { validReq with method := optionsMethod } .netThrow
      = ⟨200, .empty, false, false⟩ :=
  options_preflight_ok _ _ _ (by decide) (by decide) rfl

/-- Counterexample to C4: with the mail configuration absent, a GET
request is answered by the configuration gate with a 500, not with the 405
the claim asserts regardless of configuration. -/
theorem bad_method_missing_config_cex :
    handler cfgAbsent { validReq with method := "GET".data } .ok
      = ⟨500, .failure configErrMsg, false, false⟩ ∧
    (handler cfgAbsent { validReq with method := "GET".data } .ok).status
      ≠ 405 := by decide

/-- C4 amended: when the mail configuration is present, every request
whose method is neither POST nor OPTIONS is rejected with a 405 and the
method-not-allowed error body, regardless of the body fields, and neither
field validation nor an outbound send occurs; with absent or empty mail
configuration the configuration gate answers first with a 500. -/
theorem bad_method_rejected_405 (cfg : Config) (req : Req)
    (mail : MailResult)
    (h1 : strFalsy cfg.resendApiKey = false)
    (h2 : strFalsy cfg.toEmail = false)
    (h3 : req.method ≠ optionsMethod)
    (h4 : req.method ≠ postMethod) :
    handler cfg req mail = ⟨405, .err methodErrMsg, false, false⟩ := by
  simp [handler, h1, h2, h3, h4]

/-- Witness for the amended C4. -/
theorem bad_method_rejected_405_w :
    handler cfgPresent { validReq with method := "GET".data } .ok
      = ⟨405, .err methodErrMsg, false, false⟩ :=
  bad_method_rejected_405 _ _ _ (by decide) (by decide) (by decide) (by decide)

/-- C5: when the configuration is present, the request is a POST and all
six validator results pass the handler's checks, a non-success response
from the mail collaborator — whatever its status and whatever its
diagnostic body — produces exactly the 500 response with the fixed generic
message; no part of the upstream status or body reaches the caller, since
the response is the same constant for every upstream diagnostic. -/
theorem upstream_failure_generic_500 (cfg : Config) (req : Req)
    (h1 : strFalsy cfg.resendApiKey = false)
    (h2 : strFalsy cfg.toEmail = false)
    (h3 : req.method = postMethod)
    (hn : optFalsy (validateName req.name) = false)
    (hc : optFalsy (validateCompany req.company) = false)
    (he : optFalsy (validateEmail req.email) = false)
    (hco : optFalsy (validateCountry req.country) = false)
    (hp : (validateProducts req.products).isNone = false)
    (hm : optFalsy (validateMessage req.message) = false) :
    ∀ st : Nat, ∀ body : List Char,
      handler cfg req (.fail st body)
        = ⟨500, .failure genericErrMsg, true, true⟩ := by
  intro st body
  simp +decide [handler, h1, h2, h3, hn, hc, he, hco, hp, hm]

/-- Witness for C5: a concrete valid request and a concrete upstream
diagnostic produce the fixed generic 500. -/
theorem upstream_failure_generic_500_w :
    handler cfgPresent validReq (.fail 403 "domain not verified".data)
      = ⟨500, .failure genericErrMsg, true, true⟩ :=
  upstream_failure_generic_500 _ _ (by decide) (by decide) rfl (by decide)
    (by decide) (by decide) (by decide) (by decide) (by decide) 403
    "domain not verified".data

/-- Counterexample to C9: with a whitespace-only name (whose validator
succeeds, returning the empty string) and a non-string company (whose
validator is the first to fail), the response carries the name message,
not the message of the first failing field. -/
theorem first_error_message_cex :
    validateName (.str " ".data) = some [] ∧
    validateCompany (.num 0) = none ∧
    (validateEmail validReq.email).isSome = true ∧
    (validateCountry validReq.country).isSome = true ∧
    (validateProducts validReq.products).isSome = true ∧
    (validateMessage validReq.message).isSome = true ∧
    handler cfgPresent
        { validReq with name := .str " ".data, company := .num 0 } .ok
      = ⟨400, .failure nameErrMsg, true, false⟩ ∧
    nameErrMsg ≠ companyErrMsg := by decide

/-- C9 amended: for every POST request with the mail configuration
present, if any of the six validator results is rejected by the handler's
falsy check (null, or the empty string a whitespace-only text field
produces), the response is a 400 carrying exactly the one error message of
the first such field in the fixed order name, company, email, country,
products, message, and no outbound send occurs. -/
theorem first_falsy_error_message (cfg : Config) (req : Req)
    (mail : MailResult) (m : List Char)
    (h1 : strFalsy cfg.resendApiKey = false)
    (h2 : strFalsy cfg.toEmail = false)
    (h3 : req.method = postMethod)
    (hf : firstFailMsg req = some m) :
    handler cfg req mail = ⟨400, .failure m, true, false⟩ := by
  rw [firstFailMsg] at hf
  by_cases hn : optFalsy (validateName req.name) = true
  · rw [if_pos hn] at hf
    injection hf with hf
    subst hf
    simp +decide [handler, h1, h2, h3, hn]
  · rw [if_neg hn] at hf
    by_cases hc : optFalsy (validateCompany req.company) = true
    · rw [if_pos hc] at hf
      injection hf with hf
      subst hf
      simp +decide [handler, h1, h2, h3, hn, hc]
    · rw [if_neg hc] at hf
      by_cases he : optFalsy (validateEmail req.email) = true
      · rw [if_pos he] at hf
        injection hf with hf
        subst hf
        simp +decide [handler, h1, h2, h3, hn, hc, he]
      · rw [if_neg he] at hf
        by_cases hco : optFalsy (validateCountry req.country) = true
        · rw [if_pos hco] at hf
          injection hf with hf
          subst hf
          simp +decide [handler, h1, h2, h3, hn, hc, he, hco]
        · rw [if_neg hco] at hf
          by_cases hp : (validateProducts req.products).isNone = true
          · rw [if_pos hp] at hf
            injection hf with hf
            subst hf
            simp +decide [handler, h1, h2, h3, hn, hc, he, hco, hp]
          · rw [if_neg hp] at hf
            by_cases hmg : optFalsy (validateMessage req.message) = true
            · rw [if_pos hmg] at hf
              injection hf with hf
              subst hf
              simp +decide [handler, h1, h2, h3, hn, hc, he, hco, hp, hmg]
            · rw [if_neg hmg] at hf
              exact Option.noConfusion hf

/-- Witness for the amended C9: a request whose first rejected field is the
e-mail receives the e-mail message. -/
theorem first_falsy_error_message_w :
    handler cfgPresent { validReq with email := .str "nope".data } .ok
      = ⟨400, .failure emailErrMsg, true, false⟩ :=
  first_falsy_error_message _ _ _ _ (by decide) (by decide) rfl (by decide)

/-- C7: validateProducts rejects every non-array and the empty array;
entries outside the whitelist are silently dropped, so an array of only
unrecognized codes is rejected exactly as the empty array is; on success
the result is precisely the surviving whitelisted entries (escaping is the
identity on them), and it is nonempty. -/
theorem validateProducts_whitelist :
    (∀ v : JsValue, (∀ xs, v ≠ .arr xs) → validateProducts v = none) ∧
    validateProducts (.arr []) = none ∧
    (∀ ps : List JsValue, (∀ p ∈ ps, inWhitelist p = false) →
      validateProducts (.arr ps) = validateProducts (.arr [])) ∧
    (∀ ps outs, validateProducts (.arr ps) = some outs →
      outs = (ps.filter inWhitelist).map sanitizeHtmlJs ∧ outs ≠ [] ∧
      outs = (ps.filter inWhitelist).map jsStr) := by
  refine ⟨?_, by decide, ?_, ?_⟩
  · intro v h
    cases v with
    | arr xs => exact absurd rfl (h xs)
    | str s => rfl
    | num n => rfl
    | bool b => rfl
    | null => rfl
    | undefined => rfl
  · intro ps h
    have hf : ps.filter inWhitelist = [] :=
      List.filter_eq_nil_iff.mpr fun a ha => by simp [h a ha]
    by_cases h0 : ps.length = 0 <;> simp [validateProducts, h0, hf]
  · intro ps outs h
    simp only [validateProducts] at h
    by_cases h0 : ps.length = 0
    · rw [if_pos h0] at h; exact Option.noConfusion h
    · rw [if_neg h0] at h
      by_cases h1 : 0 < ((ps.filter inWhitelist).map sanitizeHtmlJs).length
      · rw [if_pos h1] at h
        injection h with h
        subst h
        refine ⟨rfl, List.ne_nil_of_length_pos h1, ?_⟩
        refine List.map_congr_left fun p hp => ?_
        have hw : inWhitelist p = true := (List.mem_filter.mp hp).2
        cases p with
        | str s =>
          have : s = "CBB60".data ∨ s = "CBB61".data := by
            simpa [inWhitelist] using hw
          rcases this with rfl | rfl <;> decide
        | num n => exact absurd hw (by simp [inWhitelist])
        | bool b => exact absurd hw (by simp [inWhitelist])
        | null => exact absurd hw (by simp [inWhitelist])
        | undefined => exact absurd hw (by simp [inWhitelist])
        | arr xs => exact absurd hw (by simp [inWhitelist])
      · rw [if_neg h1] at h; exact Option.noConfusion h

/-- Witness for C7 at concrete inputs: a non-array is rejected, an array
of only unrecognized codes behaves as the empty array, and a mixed array
yields exactly its whitelisted entries. -/
theorem validateProducts_whitelist_w :
    validateProducts (.num 3) = none ∧
    validateProducts (.arr [.str "XX".data]) = validateProducts (.arr []) ∧
    ["CBB60".data]
      = (([.str "CBB60".data, .str "XX".data] : List JsValue).filter
          inWhitelist).map jsStr :=
  ⟨validateProducts_whitelist.1 (.num 3) fun _ h => JsValue.noConfusion h,
   validateProducts_whitelist.2.2.1 [.str "XX".data] (by decide),
   (validateProducts_whitelist.2.2.2 [.str "CBB60".data, .str "XX".data]
     ["CBB60".data] (by decide)).2.2⟩

theorem takeWhile_append_eq (p : Char → Bool) (a : List Char) (x : Char)
    (d : List Char) (ha : ∀ y ∈ a, p y = true) (hx : p x = false) :
    (a ++ x :: d).takeWhile p = a := by
  induction a with
  | nil => simp [List.takeWhile_cons, hx]
  | cons c cs ih =>
    have hc : p c = true := ha c (List.mem_cons_self _ _)
    simp [List.takeWhile_cons, hc,
      ih fun y hy => ha y (List.mem_cons_of_mem _ hy)]

theorem dropWhile_append_eq (p : Char → Bool) (a : List Char) (x : Char)
    (d : List Char) (ha : ∀ y ∈ a, p y = true) (hx : p x = false) :
    (a ++ x :: d).dropWhile p = x :: d := by
  induction a with
  | nil => simp [List.dropWhile_cons, hx]
  | cons c cs ih =>
    have hc : p c = true := ha c (List.mem_cons_self _ _)
    simp [List.dropWhile_cons, hc,
      ih fun y hy => ha y (List.mem_cons_of_mem _ hy)]

theorem dropLast_cons_ne (x : Char) (l : List Char) (h : l ≠ []) :
    (x :: l).dropLast = x :: l.dropLast := by
  cases l with
  | nil => exact absurd rfl h
  | cons y t => rfl

theorem dropLast_append_ne (xs ys : List Char) (h : ys ≠ []) :
    (xs ++ ys).dropLast = xs ++ ys.dropLast := by
  induction xs with
  | nil => rfl
  | cons c cs ih =>
    have hne : cs ++ ys ≠ [] := by
      intro hcontra
      rcases List.append_eq_nil.mp hcontra with ⟨_, h2⟩
      exact h h2
    rw [List.cons_append, dropLast_cons_ne c _ hne, ih, List.cons_append]

theorem email_split (s : List Char) (h : atC ∈ s) :
    s = emailLocal s ++ atC :: emailDomain s := by
  induction s with
  | nil => cases h
  | cons x t ih =>
    by_cases hx : x = atC
    · subst hx
      simp [emailLocal, emailDomain, List.takeWhile_cons, List.dropWhile_cons]
    · have hmem : atC ∈ t := by
        rcases List.mem_cons.mp h with h | h
        · exact absurd h.symm hx
        · exact h
      have hxb : (x != atC) = true := bne_iff_ne.mpr hx
      calc x :: t = x :: (emailLocal t ++ atC :: emailDomain t) := by
            rw [← ih hmem]
      _ = emailLocal (x :: t) ++ atC :: emailDomain (x :: t) := by
            simp [emailLocal, emailDomain, List.takeWhile_cons,
              List.dropWhile_cons, hxb]

/-- Equivalence of the executable e-mail check with the declarative
language of the source regex. -/
theorem isValidEmail_iff_lang (s : List Char) :
    isValidEmail s = true ↔ emailRegexLang s := by
  constructor
  · intro h
    rw [isValidEmail] at h
    simp only [Bool.and_eq_true, decide_eq_true_eq, List.all_eq_true,
      List.any_eq_true] at h
    obtain ⟨⟨⟨hcount, hws⟩, hloc⟩, x, hxmem, hxeq⟩ := h
    have hxd : x = dotC := by simpa using hxeq
    subst hxd
    have hat : atC ∈ s := by
      by_contra hno
      have h0 : s.countP (fun c => c == atC) = 0 :=
        List.countP_eq_zero.mpr fun y hy hye =>
          hno (by rwa [show y = atC by simpa using hye] at hy)
      rw [h0] at hcount
      cases hcount
    have hsplit := email_split s hat
    have hLno : ∀ y ∈ emailLocal s, y ≠ atC := by
      intro y hy
      rw [emailLocal] at hy
      have hp := List.mem_takeWhile_imp hy
      exact bne_iff_ne.mp hp
    have hL0 : (emailLocal s).countP (fun c => c == atC) = 0 :=
      List.countP_eq_zero.mpr fun y hy hye =>
        hLno y hy (by simpa using hye)
    have hDno : ∀ y ∈ emailDomain s, y ≠ atC := by
      intro y hy hyeq
      subst hyeq
      have hpos : 0 < (emailDomain s).countP (fun c => c == atC) :=
        List.countP_pos_iff.mpr ⟨atC, hy, by simp⟩
      rw [hsplit, List.countP_append, List.countP_cons, hL0,
        if_pos (show (atC == atC) = true by decide)] at hcount
      omega
    rw [emailMid] at hxmem
    cases hD : emailDomain s with
    | nil => rw [hD] at hxmem; simp at hxmem
    | cons d0 rest =>
      rw [hD] at hxmem hsplit hDno
      have hrest : dotC ∈ rest.dropLast := by simpa using hxmem
      have hrne : rest ≠ [] := by
        rintro rfl
        simp at hrest
      obtain ⟨u, v, huv⟩ := List.append_of_mem hrest
      obtain ⟨z, hz⟩ : ∃ z, rest.getLast hrne = z := ⟨_, rfl⟩
      have hrest_eq : rest = (u ++ dotC :: v) ++ [z] := by
        conv_lhs => rw [← List.dropLast_append_getLast hrne]
        rw [huv, hz]
      refine ⟨emailLocal s, d0 :: u, v ++ [z], ?_, hloc,
        by simp, by simp, ?_, ?_, ?_⟩
      · conv_lhs => rw [hsplit, hrest_eq]
        simp
      · intro y hy
        have hys : y ∈ s := by
          rw [hsplit]
          exact List.mem_append.mpr (Or.inl hy)
        simp only [nonWsAt, Bool.and_eq_true, bne_iff_ne]
        exact ⟨by simpa using hws y hys, hLno y hy⟩
      · intro y hy
        have hyD : y ∈ d0 :: rest := by
          rcases List.mem_cons.mp hy with rfl | hyu
          · exact List.mem_cons_self _ _
          · refine List.mem_cons_of_mem _ ?_
            rw [hrest_eq]
            exact List.mem_append.mpr
              (Or.inl (List.mem_append.mpr (Or.inl hyu)))
        have hys : y ∈ s := by
          rw [hsplit]
          exact List.mem_append.mpr (Or.inr (List.mem_cons_of_mem _ hyD))
        simp only [nonWsAt, Bool.and_eq_true, bne_iff_ne]
        exact ⟨by simpa using hws y hys, hDno y hyD⟩
      · intro y hy
        have hyD : y ∈ d0 :: rest := by
          refine List.mem_cons_of_mem _ ?_
          rw [hrest_eq]
          rcases List.mem_append.mp hy with hyv | hyz
          · exact List.mem_append.mpr
              (Or.inl (List.mem_append.mpr
                (Or.inr (List.mem_cons_of_mem _ hyv))))
          · exact List.mem_append.mpr (Or.inr hyz)
        have hys : y ∈ s := by
          rw [hsplit]
          exact List.mem_append.mpr (Or.inr (List.mem_cons_of_mem _ hyD))
        simp only [nonWsAt, Bool.and_eq_true, bne_iff_ne]
        exact ⟨by simpa using hws y hys, hDno y hyD⟩
  · rintro ⟨a, b, c, hs, ha0, hb0, hc0, ha, hb, hc⟩
    subst hs
    have hNoWs : ∀ (l : List Char), (∀ y ∈ l, nonWsAt y = true) →
        ∀ y ∈ l, (y != atC) = true ∧ jsWs y = false := by
      intro l hl y hy
      have := hl y hy
      simp only [nonWsAt, Bool.and_eq_true] at this
      exact ⟨this.2, by simpa using this.1⟩
    have hpa : ∀ y ∈ a, (fun c => c != atC) y = true :=
      fun y hy => (hNoWs a ha y hy).1
    rw [isValidEmail]
    simp only [Bool.and_eq_true, decide_eq_true_eq, List.all_eq_true,
      List.any_eq_true]
    have hA : a.countP (fun c => c == atC) = 0 :=
      List.countP_eq_zero.mpr fun y hy hye => by
        have := (hNoWs a ha y hy).1
        rw [show y = atC by simpa using hye] at this
        simp at this
    have hB : b.countP (fun c => c == atC) = 0 :=
      List.countP_eq_zero.mpr fun y hy hye => by
        have := (hNoWs b hb y hy).1
        rw [show y = atC by simpa using hye] at this
        simp at this
    have hC : c.countP (fun c => c == atC) = 0 :=
      List.countP_eq_zero.mpr fun y hy hye => by
        have := (hNoWs c hc y hy).1
        rw [show y = atC by simpa using hye] at this
        simp at this
    refine ⟨⟨⟨?_, ?_⟩, ?_⟩, ?_⟩
    · rw [List.countP_append, List.countP_cons, List.countP_append,
        List.countP_cons, hA, hB, hC]
      decide
    · intro y hy
      rcases List.mem_append.mp hy with hya | hyr
      · simp [(hNoWs a ha y hya).2]
      · rcases List.mem_cons.mp hyr with rfl | hybc
        · decide
        · rcases List.mem_append.mp hybc with hyb | hyc
          · simp [(hNoWs b hb y hyb).2]
          · rcases List.mem_cons.mp hyc with rfl | hyc
            · decide
            · simp [(hNoWs c hc y hyc).2]
    · rw [emailLocal, takeWhile_append_eq _ _ _ _ hpa (by simp)]
      exact ha0
    · have hD : emailDomain (a ++ atC :: (b ++ dotC :: c))
          = b ++ dotC :: c := by
        rw [emailDomain, dropWhile_append_eq _ _ _ _ hpa (by simp)]
        simp
      rcases b with _ | ⟨b0, tb⟩
      · exact absurd rfl hb0
      refine ⟨dotC, ?_, by simp⟩
      rw [emailMid, hD]
      have h1 : (((b0 :: tb) ++ dotC :: c).drop 1) = tb ++ dotC :: c := by
        simp
      rw [h1, dropLast_append_ne tb _ (by simp), dropLast_cons_ne dotC c hc0]
      exact List.mem_append.mpr (Or.inr (List.mem_cons_self _ _))

/-- Counterexample to C6: the seven-character string with domain dot in
first position satisfies every condition of the claim's characterization —
length in 5–255, trim-invariant, exactly one at sign, at least one
non-whitespace character on each side, at least one dot in the domain —
yet validateEmail rejects it, because the source regex requires a nonempty
run of characters between the at sign and a dot. -/
theorem validateEmail_claim_cex :
    "ab@.com".data.length = 7 ∧
    trim "ab@.com".data = "ab@.com".data ∧
    "ab@.com".data.countP (fun c => c == atC) = 1 ∧
    (emailLocal "ab@.com".data).any (fun c => !jsWs c) = true ∧
    (emailDomain "ab@.com".data).any (fun c => !jsWs c) = true ∧
    (emailDomain "ab@.com".data).any (fun c => c == dotC) = true ∧
    validateEmail (.str "ab@.com".data) = none := by decide

/-- C6 amended: validateEmail accepts exactly the strings of raw length
5–255 whose trimmed form lies in the language of the source regex — a
nonempty run of non-whitespace non-at characters, an at sign, a nonempty
such run, a dot, and a nonempty such run (so no whitespace anywhere,
exactly one at sign, and a domain dot that is neither the first character
of the domain nor its last) — and on acceptance it returns the trimmed,
HTML-escaped value; every non-string value is rejected. -/
theorem validateEmail_characterization :
    (∀ v : JsValue, (validateEmail v).isSome = true
      ↔ ∃ s, v = .str s ∧ 5 ≤ s.length ∧ s.length ≤ 255
          ∧ emailRegexLang (trim s)) ∧
    (∀ s out, validateEmail (.str s) = some out
      → out = sanitizeHtml (trim s)) := by
  constructor
  · intro v
    constructor
    · intro h
      cases v with
      | str s =>
        rw [validateEmail] at h
        by_cases h5 : isValidLength (.str s) 5 255 = true
        · rw [if_pos h5] at h
          by_cases hE : isValidEmail (trim (jsStr (.str s))) = true
          · exact ⟨s, rfl, (isValidLength_str_iff.mp h5).1,
              (isValidLength_str_iff.mp h5).2, (isValidEmail_iff_lang _).mp hE⟩
          · rw [if_neg hE] at h; cases h
        · rw [if_neg h5] at h; cases h
      | num n => simp [validateEmail, isValidLength] at h
      | bool b => simp [validateEmail, isValidLength] at h
      | null => simp [validateEmail, isValidLength] at h
      | undefined => simp [validateEmail, isValidLength] at h
      | arr xs => simp [validateEmail, isValidLength] at h
    · rintro ⟨s, rfl, h5a, h5b, hlang⟩
      rw [validateEmail]
      rw [if_pos (isValidLength_str_iff.mpr ⟨h5a, h5b⟩)]
      simp only [jsStr]
      rw [if_pos ((isValidEmail_iff_lang _).mpr hlang)]
      rfl
  · intro s out h
    rw [validateEmail] at h
    split at h
    · split at h
      · injection h with h; exact h.symm
      · cases h
    · cases h

/-- Witness for the amended C6 at a concrete accepted address. -/
theorem validateEmail_characterization_w :
    (∃ s, (JsValue.str "jane@acme.com".data) = .str s
      ∧ 5 ≤ s.length ∧ s.length ≤ 255 ∧ emailRegexLang (trim s)) ∧
    "jane@acme.com".data = sanitizeHtml (trim "jane@acme.com".data) :=
  ⟨(validateEmail_characterization.1 (.str "jane@acme.com".data)).mp
     (by decide),
   validateEmail_characterization.2 "jane@acme.com".data _ (by decide)⟩

/-- Request accepted by both handlers whose name carries raw markup. -/
def reqAngle : Req := { validReq with name := .str "Jane <Doe>".data }

/-- Second configuration, differing from cfgPresent only in the recipient. -/
def cfgOther : Config :=
  ⟨some "re_key".data, some "other@example.com".data, none, none⟩

/-- C10: the legacy handler is not equivalent to the authoritative one.
On an input accepted by both, the legacy payload embeds the raw name (with
its angle brackets) in the subject and HTML values where the authoritative
payload embeds the escaped form; the legacy handler also accepts an input
failing the authoritative format checks, and it sends with a hard-coded
credential to a hard-coded recipient while the authoritative handler uses
the configured credential and recipient. -/
theorem legacy_handler_not_equivalent :
    legacyAccepts reqAngle = true ∧
    (apiPayload cfgPresent reqAngle).isSome = true ∧
    (legacyPayload reqAngle).subject
      = "New Inquiry: Jane <Doe> from Acme Corp".data ∧
    (apiPayload cfgPresent reqAngle).map ApiPayload.subject
      = some "New Inquiry: Jane &lt;Doe&gt; from Acme Corp".data ∧
    (legacyPayload reqAngle).subject.contains ltC = true ∧
    (apiPayload cfgPresent reqAngle).map (fun p => p.subject.contains ltC)
      = some false ∧
    (legacyPayload reqAngle).htmlValues.head? = some "Jane <Doe>".data ∧
    (apiPayload cfgPresent reqAngle).map (fun p => p.htmlValues.head?)
      = some (some "Jane &lt;Doe&gt;".data) ∧
    legacyAccepts { validReq with email := .str "not-an-email".data }
      = true ∧
    apiPayload cfgPresent { validReq with email := .str "not-an-email".data }
      = none ∧
    legacyAuthKey = "re_Wb6wExws_6bZtSDtaNp85tJTZt7Q8apVm".data ∧
    (legacyPayload reqAngle).toAddrs = ["sales@eperscapacitor.com".data] ∧
    (apiPayload cfgPresent reqAngle).map ApiPayload.toAddrs
      = some ["sales@example.com".data] ∧
    (apiPayload cfgOther reqAngle).map ApiPayload.toAddrs
      = some ["other@example.com".data] ∧
    (apiPayload cfgPresent reqAngle).map ApiPayload.authKey
      = some "re_key".data := by decide
